import Mathlib

/-!
Verification development for the chain-of-custody backend
(yashikart/chain-of-custody).

The repository has two backend variants:
* the main Express routes (`backend/routes/upload.js`, `routes/move.js`,
  `routes/download.js`) backed by a `ChainOfCustody` Mongoose model, and
* `backend/simple-server.js`, an in-memory variant keeping two `Map`s
  (`files`, `custodyChain`).

We shallowly embed both.  File contents are modelled as `String`; the
crypto digest is an explicit function parameter (the crypto library is an
external collaborator), filesystem state is an association list from path
to content, and the Mongo collection / the in-memory `Map`s are
association lists keyed by `fileId`.
-/

namespace Custody

/-- File contents (the byte stream), abstracted as a string of bytes. -/
abbrev Content := String

/-- One custody-chain entry, as appended by the backend routes:
`{action, userId, location, notes}` (we drop `ipAddress`/`userAgent`/
`timestamp`, which no claim mentions beyond presence). -/
structure CustodyEvent where
  action : String
  userId : String
  location : String
  notes : String
deriving Repr, DecidableEq

/-- Association-list lookup, modelling `Map.get` / a keyed point lookup. -/
def lookupA (l : List (String × β)) (k : String) : Option β :=
  (l.find? (fun p => p.1 == k)).map (fun p => p.2)

/-- Association-list update, modelling `Map.set`: replace the binding of
`k` in place if present, otherwise append at the end. -/
def setA : List (String × β) → String → β → List (String × β)
  | [], k, v => [(k, v)]
  | (k0, v0) :: t, k, v =>
      if k0 == k then (k, v) :: t else (k0, v0) :: setA t k v

/-- Remove every binding of `k`, modelling `fs.unlinkSync` on the path map. -/
def removeA (l : List (String × β)) (k : String) : List (String × β) :=
  l.filter (fun p => !(p.1 == k))

/-- `path.basename`: the final component of a slash-separated path. -/
def baseName (p : String) : String :=
  ((p.splitOn "/").getLastD p)

/-- JavaScript's `toLowerCase()`, modelled character-wise (exact for the
ASCII hex strings the hashers compare). -/
def strLower (v : String) : String := String.mk (v.data.map Char.toLower)

/-- The location of the most recent `upload`-or-`move` event of a custody
chain (the value invariant I3 compares `currentLocation` against). -/
def lastUMLocation (es : List CustodyEvent) : Option String :=
  ((es.filter (fun e => e.action == "upload" || e.action == "move")).getLast?).map
    (fun e => e.location)

/-- Error kinds surfaced by the routes (each corresponds to one of the
HTTP error responses in the source). -/
inductive ErrKind where
  | missingField
  | missingActor
  | notFound
  | invalidState
  | fileMissing
  | integrityViolation
  | saveFailed
deriving Repr, DecidableEq

end Custody

namespace Routes
open Custody

/-- Case metadata captured at upload (`department`, `caseNumber`,
`evidenceType`, `classification`). -/
structure Metadata where
  department : String
  caseNumber : String
  evidenceType : String
  classification : String
deriving Repr, DecidableEq

/-- A `ChainOfCustody` document as created by `routes/upload.js`. -/
structure FileRecord where
  fileId : String
  originalFileName : String
  filePath : String
  fileSize : Nat
  checksum : String
  currentLocation : String
  status : String
  custodyChain : List CustodyEvent
  metadata : Metadata
deriving Repr, DecidableEq

/-- State of the routes backend: the Mongo collection of records plus the
physical filesystem (path to bytes). -/
structure RState where
  records : List FileRecord
  storage : List (String × Content)
deriving Repr, DecidableEq

/-- The empty initial state. -/
def initR : RState := { records := [], storage := [] }

/-- `ChainOfCustody.findByFileId` (the model schema staged in
src/Chain-of-Custody-file-movement/simple-demo.ps1): a `findOne` on
`fileId`, i.e. the first record with that id. -/
def findByFileId (rs : List FileRecord) (fid : String) : Option FileRecord :=
  rs.find? (fun r => r.fileId == fid)

/-- Persist the one document returned by `findByFileId` after in-place
mutation (`record.save()`): replace the first record carrying the given
`fileId` by its image under `f`. -/
def updateRecord : List FileRecord → String → (FileRecord → FileRecord) →
    List FileRecord
  | [], _, _ => []
  | r :: t, fid, f =>
      if r.fileId == fid then f r :: t else r :: updateRecord t fid f

/-- `record.addCustodyEvent(eventData)` of the `ChainOfCustody` model
(staged in src/Chain-of-Custody-file-movement/simple-demo.ps1): push the
event onto `custodyChain` and, when the event's `location` is truthy
(non-empty), set `currentLocation` to it; then save. -/
def addCustodyEvent (r : FileRecord) (e : CustodyEvent) : FileRecord :=
  { r with
    custodyChain := r.custodyChain ++ [e]
    currentLocation :=
      if e.location != "" then e.location else r.currentLocation }

/-- Result of `POST /api/upload`. -/
inductive UploadResult where
  | ok (fileId checksum : String)
  | err (e : ErrKind)
deriving Repr, DecidableEq

/-- `POST /api/upload` (`routes/upload.js`).  Multer has already written
the uploaded bytes to `path` before the handler runs; `freshId` is the
`crypto.randomUUID()` draw; `hash` is the streaming SHA-256 hex digest;
`saveOk` tells whether `chainOfCustody.save()` succeeds.  On a save
failure the catch-handler unlinks the stored file and returns 500. -/
def uploadOp (freshId path content origName : String) (hash : Content → String)
    (userId : String) (md : Metadata) (notes : String) (saveOk : Bool)
    (s : RState) : RState × UploadResult :=
  let storage1 := setA s.storage path content
  if userId == "" then
    ({ s with storage := storage1 }, .err .missingActor)
  else
    let checksum := hash content
    let rec0 : FileRecord :=
      { fileId := freshId
        originalFileName := origName
        filePath := path
        fileSize := content.length
        checksum := checksum
        currentLocation := "uploads"
        status := "active"
        custodyChain :=
          [{ action := "upload", userId := userId, location := "uploads",
             notes := notes }]
        metadata := md }
    if saveOk then
      ({ records := s.records ++ [rec0], storage := storage1 },
        .ok freshId checksum)
    else
      ({ records := s.records, storage := removeA storage1 path },
        .err .saveFailed)

/-- Result of `POST /api/move`. -/
inductive MoveResult where
  | ok (previousLocation newLocation : String)
  | err (e : ErrKind)
deriving Repr, DecidableEq

/-- `POST /api/move` (`routes/move.js`, src/unnamed/part_006): validate
fields, look up the record, require `status == active`, require the
physical file, then `renameSync` the bytes to
`newLocation/basename(filePath)`, append a `move` event and persist the
new `filePath`.  The handler performs no hash computation. -/
def moveOp (fid uid newLocation notes : String) (s : RState) :
    RState × MoveResult :=
  if fid == "" || uid == "" || newLocation == "" then
    (s, .err .missingField)
  else
    match findByFileId s.records fid with
    | none => (s, .err .notFound)
    | some r =>
      if r.status != "active" then (s, .err .invalidState)
      else
        match lookupA s.storage r.filePath with
        | none => (s, .err .fileMissing)
        | some c =>
          let newPath := newLocation ++ "/" ++ baseName r.filePath
          let storage1 := setA (removeA s.storage r.filePath) newPath c
          let ev : CustodyEvent :=
            { action := "move", userId := uid, location := newLocation,
              notes := notes }
          let records1 := updateRecord s.records fid
            (fun r0 => { addCustodyEvent r0 ev with filePath := newPath })
          ({ records := records1, storage := storage1 },
            .ok r.currentLocation newLocation)

/-- Result of `GET /api/download/:fileId`: either the streamed bytes or a
typed error. -/
inductive DownloadResult where
  | ok (bytes : Content)
  | err (e : ErrKind)
deriving Repr, DecidableEq

/-- `GET /api/download/:fileId` (`routes/download.js`): require `userId`,
look up the record, require `status == active`, require the physical
file, re-hash the stored bytes and compare to the recorded `checksum`
(`verifyFileIntegrity`, a case-sensitive `===`); on mismatch fail without
appending; otherwise append a `download` event and stream the bytes. -/
def downloadOp (fid uid notes : String) (hash : Content → String)
    (s : RState) : RState × DownloadResult :=
  if uid == "" then (s, .err .missingActor)
  else
    match findByFileId s.records fid with
    | none => (s, .err .notFound)
    | some r =>
      if r.status != "active" then (s, .err .invalidState)
      else
        match lookupA s.storage r.filePath with
        | none => (s, .err .fileMissing)
        | some c =>
          if hash c != r.checksum then (s, .err .integrityViolation)
          else
            let ev : CustodyEvent :=
              { action := "download", userId := uid,
                location := r.currentLocation, notes := notes }
            ({ s with
                records := updateRecord s.records fid
                  (fun r0 => addCustodyEvent r0 ev) },
              .ok c)

/-- Result of `POST /api/download/access-log`. -/
inductive AccessResult where
  | ok
  | err (e : ErrKind)
deriving Repr, DecidableEq

/-- `POST /api/download/access-log` (`routes/download.js`): require
`fileId` and `userId`, look up the record, then append an `access` event
unconditionally — no status check and no integrity check. -/
def accessLogOp (fid uid notes : String) (s : RState) :
    RState × AccessResult :=
  if fid == "" || uid == "" then (s, .err .missingField)
  else
    match findByFileId s.records fid with
    | none => (s, .err .notFound)
    | some r =>
      let ev : CustodyEvent :=
        { action := "access", userId := uid, location := r.currentLocation,
          notes := notes }
      ({ s with
          records := updateRecord s.records fid
            (fun r0 => addCustodyEvent r0 ev) },
        .ok)

/-- One step of the routes backend: any one of the four lifecycle
operations with arbitrary client-supplied arguments (including an
arbitrary digest function and an arbitrary save outcome). -/
inductive Step : RState → RState → Prop where
  | upload (freshId path content origName : String) (hash : Content → String)
      (userId : String) (md : Metadata) (notes : String) (saveOk : Bool)
      (s : RState) :
      Step s (uploadOp freshId path content origName hash userId md notes saveOk s).1
  | move (fid uid newLocation notes : String) (s : RState) :
      Step s (moveOp fid uid newLocation notes s).1
  | download (fid uid notes : String) (hash : Content → String) (s : RState) :
      Step s (downloadOp fid uid notes hash s).1
  | access (fid uid notes : String) (s : RState) :
      Step s (accessLogOp fid uid notes s).1

/-- States reachable from the empty backend by the core operations. -/
inductive Reachable : RState → Prop where
  | init : Reachable initR
  | step {s t : RState} : Reachable s → Step s t → Reachable t

end Routes

namespace SimpleServer
open Custody

/-- A file record of `simple-server.js` (the in-memory variant keeps the
custody chain in a second `Map`, not inside the record). -/
structure FileRecord where
  fileId : String
  originalFileName : String
  filePath : String
  fileSize : Nat
  checksum : String
  currentLocation : String
  status : String
deriving Repr, DecidableEq

/-- In-memory state of `simple-server.js`: `let files = new Map()`,
`let custodyChain = new Map()`, plus the physical filesystem. -/
structure SState where
  files : List (String × FileRecord)
  chains : List (String × List CustodyEvent)
  storage : List (String × Content)
deriving Repr, DecidableEq

/-- The empty initial state. -/
def initS : SState := { files := [], chains := [], storage := [] }

/-- Result of `POST /api/upload` in the simple server. -/
inductive UploadResult where
  | ok (fileId checksum : String)
  | err (e : ErrKind)
deriving Repr, DecidableEq

/-- `POST /api/upload` of `simple-server.js`: multer stores the bytes,
`userId` is required, the SHA-256 hex checksum is computed, a fresh
`crypto.randomUUID()` is drawn, and `files`/`custodyChain` both get set —
the chain starting as the single `upload` entry with location
`uploads`. -/
def uploadOp (freshId path content origName : String) (hash : Content → String)
    (userId notes : String) (s : SState) : SState × UploadResult :=
  let storage1 := setA s.storage path content
  if userId == "" then
    ({ s with storage := storage1 }, .err .missingActor)
  else
    let checksum := hash content
    let rec0 : FileRecord :=
      { fileId := freshId, originalFileName := origName, filePath := path,
        fileSize := content.length, checksum := checksum,
        currentLocation := "uploads", status := "active" }
    let ev : CustodyEvent :=
      { action := "upload", userId := userId, location := "uploads",
        notes := notes }
    ({ files := setA s.files freshId rec0
       chains := setA s.chains freshId [ev]
       storage := storage1 },
      .ok freshId checksum)

/-- Result of `POST /api/move` in the simple server. -/
inductive MoveResult where
  | ok (previousLocation newLocation : String)
  | err (e : ErrKind)
deriving Repr, DecidableEq

/-- `POST /api/move` of `simple-server.js`: validate fields, look the
record up, then set `currentLocation := newLocation` and push a `move`
entry.  Note the handler performs no status check, no physical-file
check and no integrity check, and does not touch the filesystem. -/
def moveOp (fid uid newLocation notes : String) (s : SState) :
    SState × MoveResult :=
  if fid == "" || uid == "" || newLocation == "" then
    (s, .err .missingField)
  else
    match lookupA s.files fid with
    | none => (s, .err .notFound)
    | some f =>
      let chain := (lookupA s.chains fid).getD []
      let previousLocation := f.currentLocation
      let f1 := { f with currentLocation := newLocation }
      let ev : CustodyEvent :=
        { action := "move", userId := uid, location := newLocation,
          notes := notes }
      ({ s with
          files := setA s.files fid f1
          chains := setA s.chains fid (chain ++ [ev]) },
        .ok previousLocation newLocation)

/-- Result of `GET /api/download/:fileId` in the simple server. -/
inductive DownloadResult where
  | ok (bytes : Content)
  | err (e : ErrKind)
deriving Repr, DecidableEq

/-- `GET /api/download/:fileId` of `simple-server.js`: require `userId`,
look up the record, require the physical file, push a `download` entry
and stream — no status check and no integrity check. -/
def downloadOp (fid uid notes : String) (s : SState) :
    SState × DownloadResult :=
  if uid == "" then (s, .err .missingActor)
  else
    match lookupA s.files fid with
    | none => (s, .err .notFound)
    | some f =>
      let chain := (lookupA s.chains fid).getD []
      match lookupA s.storage f.filePath with
      | none => (s, .err .fileMissing)
      | some c =>
        let ev : CustodyEvent :=
          { action := "download", userId := uid,
            location := f.currentLocation, notes := notes }
        ({ s with chains := setA s.chains fid (chain ++ [ev]) }, .ok c)

/-- `GET /api/upload/list` of `simple-server.js`: paginate
`Array.from(files.values())` with `skip = (page-1)*limit` and
`slice(skip, skip+limit)`, reporting `totalRecords` as the full count. -/
def listFiles (s : SState) (page limit : Nat) :
    List FileRecord × Nat :=
  let allFiles := s.files.map (fun p => p.2)
  (((allFiles.drop ((page - 1) * limit)).take limit), allFiles.length)

/-- One step of the simple server (it has no access-log operation). -/
inductive Step : SState → SState → Prop where
  | upload (freshId path content origName : String) (hash : Content → String)
      (userId notes : String) (s : SState) :
      Step s (uploadOp freshId path content origName hash userId notes s).1
  | move (fid uid newLocation notes : String) (s : SState) :
      Step s (moveOp fid uid newLocation notes s).1
  | download (fid uid notes : String) (s : SState) :
      Step s (downloadOp fid uid notes s).1

/-- States reachable from the empty simple server. -/
inductive Reachable : SState → Prop where
  | init : Reachable initS
  | step {s t : SState} : Reachable s → Step s t → Reachable t

end SimpleServer

namespace HashUtil
open Custody

/-- `HashGenerator.verifyFileIntegrity` (hash-utilities CLI,
src/unnamed/part_000 lines 233-241): recompute the digest of the file's
bytes and compare to the expected hash, lowercasing both sides. -/
def hashGenVerify (digest : Content → String) (content : Content)
    (expectedHash : String) : Bool :=
  strLower (digest content) == strLower expectedHash

/-- `verifyFileIntegrity` of `routes/download.js` (lines 10-22): recompute
the SHA-256 hex digest of the stored bytes and compare with `===` — no
case normalisation. -/
def downloadVerify (digest : Content → String) (content : Content)
    (expectedChecksum : String) : Bool :=
  digest content == expectedChecksum

/-- `HashGenerator.generateFileId` (src/unnamed/part_000 lines 188-190):
`md5(path.resolve(filePath))` — a deterministic digest of the resolved
path.  `md5hex` and `resolve` are the external crypto/path collaborators. -/
def generateFileId (md5hex resolve : String → String) (filePath : String) :
    String :=
  md5hex (resolve filePath)

/-- One custody entry of the CLI database (action, hash, algorithm,
location, notes). -/
structure HEntry where
  action : String
  hash : String
  algorithm : String
  location : String
  notes : String
deriving Repr, DecidableEq

/-- One file of the CLI custody database. -/
structure HFile where
  fileId : String
  originalPath : String
  fileName : String
  custodyChain : List HEntry
deriving Repr, DecidableEq

/-- The CLI custody database: `db.files`, keyed by `fileId`. -/
structure HDb where
  files : List (String × HFile)
deriving Repr, DecidableEq

/-- `HashGenerator.addToCustodyChain` (src/unnamed/part_000 lines
137-183): key the database by `generateFileId(filePath)`, create the
record on first sight, and push the entry onto its custody chain. -/
def addToCustodyChain (md5hex resolve : String → String) (db : HDb)
    (filePath : String) (entry : HEntry) : HDb :=
  let fileId := generateFileId md5hex resolve filePath
  let f : HFile :=
    match lookupA db.files fileId with
    | some f0 => f0
    | none =>
      { fileId := fileId, originalPath := filePath,
        fileName := baseName filePath, custodyChain := [] }
  { files := setA db.files fileId
      { f with custodyChain := f.custodyChain ++ [entry] } }

end HashUtil

namespace Routes
open Custody

/-- The record created by `POST /api/upload` (`routes/upload.js` lines
71-93): one fresh document whose custody chain is the single `upload`
event at location `uploads`, status defaulting to `active`. -/
def uploadRecord (freshId path content origName : String)
    (hash : Content → String) (userId : String) (md : Metadata)
    (notes : String) : FileRecord :=
  { fileId := freshId
    originalFileName := origName
    filePath := path
    fileSize := content.length
    checksum := hash content
    currentLocation := "uploads"
    status := "active"
    custodyChain :=
      [{ action := "upload", userId := userId, location := "uploads",
         notes := notes }]
    metadata := md }

/-- `Math.ceil(totalCount / limit)` as computed by the list endpoints
(`totalPages`). -/
def numPages (total limit : Nat) : Nat := (total + limit - 1) / limit

/-- The query filter of `GET /api/upload/list`: optional equality filters
on `status`, `metadata.department` and `metadata.caseNumber`. -/
def matchesFilters (status dept caseNum : Option String)
    (r : FileRecord) : Bool :=
  (match status with | none => true | some v => r.status == v) &&
  (match dept with | none => true | some v => r.metadata.department == v) &&
  (match caseNum with | none => true | some v => r.metadata.caseNumber == v)

/-- `GET /api/upload/list` (`routes/upload.js` lines 154-218).  The query
itself executes in MongoDB (an out-of-scope collaborator); its
`find(filters).sort(sort).skip((page-1)*limit).limit(limit)` pipeline is
embedded as filter, stable merge sort, drop and take, and
`countDocuments(filters)` as the filtered length. -/
def listQuery (rs : List FileRecord) (status dept caseNum : Option String)
    (le : FileRecord → FileRecord → Bool) (page limit : Nat) :
    List FileRecord × Nat :=
  let filtered := rs.filter (matchesFilters status dept caseNum)
  let sorted := filtered.mergeSort le
  ((sorted.drop ((page - 1) * limit)).take limit, filtered.length)

/-- Invariant I3 for the routes backend: every record's
`currentLocation` is the location of its most recent
`upload`-or-`move` event. -/
def LocInv (s : RState) : Prop :=
  ∀ r ∈ s.records, lastUMLocation r.custodyChain = some r.currentLocation

/-- Invariant I2 for the routes backend: every record has exactly one
`upload` event and it sits at index 0. -/
def SingleUploadInv (s : RState) : Prop :=
  ∀ r ∈ s.records,
    r.custodyChain.countP (fun e => e.action == "upload") = 1 ∧
    (r.custodyChain.head?).map (fun e => e.action) = some "upload"

end Routes

namespace SimpleServer
open Custody

/-- The file record created by the simple server's upload handler. -/
def uploadRecord (freshId path content origName : String)
    (hash : Content → String) : FileRecord :=
  { fileId := freshId, originalFileName := origName, filePath := path,
    fileSize := content.length, checksum := hash content,
    currentLocation := "uploads", status := "active" }

/-- The initial `upload` custody entry created by the simple server. -/
def uploadEvent (userId notes : String) : CustodyEvent :=
  { action := "upload", userId := userId, location := "uploads",
    notes := notes }

/-- Invariant I3 for the simple server: every file record has a custody
chain whose most recent `upload`-or-`move` entry carries the record's
`currentLocation`. -/
def LocInv (t : SState) : Prop :=
  ∀ fid rec, lookupA t.files fid = some rec →
    ∃ ch, lookupA t.chains fid = some ch ∧
      lastUMLocation ch = some rec.currentLocation

/-- Invariant I2 for the simple server: every file record's chain has
exactly one `upload` entry, at index 0. -/
def SingleUploadInv (t : SState) : Prop :=
  ∀ fid rec, lookupA t.files fid = some rec →
    ∃ ch, lookupA t.chains fid = some ch ∧
      ch.countP (fun e => e.action == "upload") = 1 ∧
      (ch.head?).map (fun e => e.action) = some "upload"

end SimpleServer

namespace Demo
open Custody

/-- Empty case metadata. -/
def md0 : Routes.Metadata :=
  { department := "", caseNumber := "", evidenceType := "",
    classification := "" }

/-- The upload event of the demo record. -/
def upEv : CustodyEvent :=
  { action := "upload", userId := "u1", location := "uploads", notes := "" }

/-- A demo active record whose recorded checksum is `cafe`. -/
def recActive : Routes.FileRecord :=
  { fileId := "f1", originalFileName := "a.txt",
    filePath := "uploads/a.txt", fileSize := 4, checksum := "cafe",
    currentLocation := "uploads", status := "active",
    custodyChain := [upEv], metadata := md0 }

/-- The same record with status `archived`. -/
def recArchived : Routes.FileRecord := { recActive with status := "archived" }

/-- Routes state holding `recActive` while the stored bytes are `data`
(which no demo digest maps to `cafe`): an externally tampered store. -/
def stTampered : Routes.RState :=
  { records := [recActive], storage := [("uploads/a.txt", "data")] }

/-- Routes state holding the archived record. -/
def stArchived : Routes.RState :=
  { records := [recArchived], storage := [("uploads/a.txt", "data")] }

/-- Simple-server record with status `archived`. -/
def ssRecArchived : SimpleServer.FileRecord :=
  { fileId := "f1", originalFileName := "a.txt",
    filePath := "uploads/a.txt", fileSize := 4, checksum := "cafe",
    currentLocation := "uploads", status := "archived" }

/-- Simple-server state holding the archived record with its one-entry
chain. -/
def ssArchived : SimpleServer.SState :=
  { files := [("f1", ssRecArchived)], chains := [("f1", [upEv])],
    storage := [("uploads/a.txt", "data")] }

end Demo

namespace Custody

theorem lookupA_setA_self (l : List (String × β)) (k : String) (v : β) :
    lookupA (setA l k v) k = some v := by
  induction l with
  | nil => simp [setA, lookupA]
  | cons p t ih =>
    obtain ⟨k0, v0⟩ := p
    by_cases h : (k0 == k) = true
    · simp [setA, h, lookupA]
    · simp only [setA, h, Bool.false_eq_true, if_false]
      simpa [lookupA, List.find?, h] using ih

theorem lookupA_setA_ne (l : List (String × β)) (k k0 : String) (v : β)
    (h : k0 ≠ k) : lookupA (setA l k v) k0 = lookupA l k0 := by
  induction l with
  | nil =>
    have hk : (k == k0) = false := beq_eq_false_iff_ne.mpr (Ne.symm h)
    simp [setA, lookupA, List.find?, hk]
  | cons p t ih =>
    obtain ⟨k1, v1⟩ := p
    by_cases h1 : k1 = k
    · subst h1
      have hk : (k1 == k0) = false := beq_eq_false_iff_ne.mpr (Ne.symm h)
      simp [setA, lookupA, List.find?, hk]
    · have h1' : (k1 == k) = false := beq_eq_false_iff_ne.mpr h1
      simp only [setA, h1', Bool.false_eq_true, if_false]
      by_cases h2 : k1 = k0
      · subst h2
        simp [lookupA, List.find?]
      · have h2' : (k1 == k0) = false := beq_eq_false_iff_ne.mpr h2
        simp only [lookupA, List.find?, h2']
        exact ih

theorem lookupA_removeA_self (l : List (String × β)) (k : String) :
    lookupA (removeA l k) k = none := by
  induction l with
  | nil => simp [removeA, lookupA]
  | cons p t ih =>
    obtain ⟨k0, v0⟩ := p
    by_cases h : (k0 == k) = true
    · simpa [removeA, List.filter, h] using ih
    · have hk : (k0 == k) = false := by simpa using h
      simp only [removeA, List.filter, hk, Bool.not_false] at ih ⊢
      simp only [lookupA, List.find?] at ih ⊢
      simp [hk, ih]

theorem lastUMLocation_append (es : List CustodyEvent) (e : CustodyEvent) :
    lastUMLocation (es ++ [e]) =
      if e.action == "upload" || e.action == "move" then some e.location
      else lastUMLocation es := by
  by_cases h : (e.action == "upload" || e.action == "move") = true
  · simp [lastUMLocation, List.filter_append, h, List.filter]
  · simp only [lastUMLocation, List.filter_append]
    have h' : (e.action == "upload" || e.action == "move") = false := by
      simpa using h
    simp [List.filter, h']

theorem countUploads_append (es : List CustodyEvent) (e : CustodyEvent)
    (h : (e.action == "upload") = false) :
    (es ++ [e]).countP (fun x => x.action == "upload") =
      es.countP (fun x => x.action == "upload") := by
  simp [List.countP_append, List.countP_cons, h]

theorem head?_append_of_ne_nil (es : List CustodyEvent) (e : CustodyEvent)
    (h : es ≠ []) : (es ++ [e]).head? = es.head? := by
  cases es with
  | nil => exact absurd rfl h
  | cons a t => simp

end Custody

namespace Routes
open Custody

theorem mem_updateRecord {rs : List FileRecord} {fid : String}
    {f : FileRecord → FileRecord} {r' : FileRecord}
    (h : r' ∈ updateRecord rs fid f) :
    r' ∈ rs ∨ ∃ r, findByFileId rs fid = some r ∧ r ∈ rs ∧ r' = f r := by
  induction rs with
  | nil => simp [updateRecord] at h
  | cons r t ih =>
    by_cases hc : (r.fileId == fid) = true
    · simp only [updateRecord, hc, if_true] at h
      rcases List.mem_cons.1 h with rfl | hmem
      · exact Or.inr ⟨r, by simp [findByFileId, List.find?, hc],
          List.mem_cons_self r t, rfl⟩
      · exact Or.inl (List.mem_cons_of_mem _ hmem)
    · have hc' : (r.fileId == fid) = false := by simpa using hc
      simp only [updateRecord, hc', Bool.false_eq_true, if_false] at h
      rcases List.mem_cons.1 h with rfl | hmem
      · exact Or.inl (List.mem_cons_self _ _)
      · rcases ih hmem with hm | ⟨r0, hfind, hr0mem, hfr⟩
        · exact Or.inl (List.mem_cons_of_mem _ hm)
        · refine Or.inr ⟨r0, ?_, List.mem_cons_of_mem _ hr0mem, hfr⟩
          simpa [findByFileId, List.find?, hc'] using hfind

theorem findByFileId_mem {rs : List FileRecord} {fid : String}
    {r : FileRecord} (h : findByFileId rs fid = some r) : r ∈ rs :=
  List.mem_of_find?_eq_some h

theorem findByFileId_updateRecord (rs : List FileRecord) (fid : String)
    (f : FileRecord → FileRecord) (hf : ∀ r, (f r).fileId = r.fileId) :
    findByFileId (updateRecord rs fid f) fid = (findByFileId rs fid).map f := by
  induction rs with
  | nil => simp [updateRecord, findByFileId]
  | cons r t ih =>
    by_cases hc : (r.fileId == fid) = true
    · simp only [updateRecord, hc, if_true, findByFileId, List.find?, hf r]
      rfl
    · have hc' : (r.fileId == fid) = false := by simpa using hc
      simp only [updateRecord, hc', Bool.false_eq_true, if_false,
        findByFileId, List.find?]
      simpa [findByFileId] using ih

theorem uploadOp_records (freshId path content origName : String)
    (hash : Content → String) (userId : String) (md : Metadata)
    (notes : String) (saveOk : Bool) (s : RState) :
    (uploadOp freshId path content origName hash userId md notes saveOk s).1.records
        = s.records ∨
    (uploadOp freshId path content origName hash userId md notes saveOk s).1.records
        = s.records ++ [uploadRecord freshId path content origName hash userId md notes] := by
  cases hu : (userId == "") <;> cases saveOk <;>
    simp [uploadOp, uploadRecord, hu]

theorem moveOp_records (fid uid newLocation notes : String) (s : RState) :
    (moveOp fid uid newLocation notes s).1.records = s.records ∨
    ((newLocation == "") = false ∧
      ∃ np, (moveOp fid uid newLocation notes s).1.records =
        updateRecord s.records fid (fun r0 =>
          { addCustodyEvent r0
              { action := "move", userId := uid, location := newLocation,
                notes := notes } with filePath := np })) := by
  cases h1 : (fid == "" || uid == "" || newLocation == "")
  · have hloc : (newLocation == "") = false :=
      (Bool.or_eq_false_iff.1 h1).2
    cases hfind : findByFileId s.records fid with
    | none => simp [moveOp, h1, hfind]
    | some r =>
      cases hst : (r.status != "active")
      · cases hbytes : lookupA s.storage r.filePath with
        | none => simp [moveOp, h1, hfind, hst, hbytes]
        | some c =>
          right
          exact ⟨hloc, newLocation ++ "/" ++ baseName r.filePath,
            by simp [moveOp, h1, hfind, hst, hbytes]⟩
      · simp [moveOp, h1, hfind, hst]
  · simp [moveOp, h1]

theorem downloadOp_records (fid uid notes : String)
    (hash : Content → String) (s : RState) :
    (downloadOp fid uid notes hash s).1.records = s.records ∨
    ∃ r, findByFileId s.records fid = some r ∧
      (downloadOp fid uid notes hash s).1.records =
        updateRecord s.records fid (fun r0 =>
          addCustodyEvent r0
            { action := "download", userId := uid,
              location := r.currentLocation, notes := notes }) := by
  cases h1 : (uid == "")
  · cases hfind : findByFileId s.records fid with
    | none => simp [downloadOp, h1, hfind]
    | some r =>
      cases hst : (r.status != "active")
      · cases hbytes : lookupA s.storage r.filePath with
        | none => simp [downloadOp, h1, hfind, hst, hbytes]
        | some c =>
          cases hint : (hash c != r.checksum)
          · right
            exact ⟨r, rfl,
              by simp [downloadOp, h1, hfind, hst, hbytes, hint]⟩
          · simp [downloadOp, h1, hfind, hst, hbytes, hint]
      · simp [downloadOp, h1, hfind, hst]
  · simp [downloadOp, h1]

theorem accessLogOp_records (fid uid notes : String) (s : RState) :
    (accessLogOp fid uid notes s).1.records = s.records ∨
    ∃ r, findByFileId s.records fid = some r ∧
      (accessLogOp fid uid notes s).1.records =
        updateRecord s.records fid (fun r0 =>
          addCustodyEvent r0
            { action := "access", userId := uid,
              location := r.currentLocation, notes := notes }) := by
  cases h1 : (fid == "" || uid == "")
  · cases hfind : findByFileId s.records fid with
    | none => simp [accessLogOp, h1, hfind]
    | some r =>
      right
      exact ⟨r, rfl, by simp [accessLogOp, h1, hfind]⟩
  · simp [accessLogOp, h1]

theorem locInv_step {s t : RState} (hstep : Step s t) (hinv : LocInv s) :
    LocInv t := by
  cases hstep
  case upload freshId path content origName hash userId md notes saveOk =>
    intro r hr
    rcases uploadOp_records freshId path content origName hash userId md
        notes saveOk s with heq | heq
    · rw [heq] at hr; exact hinv r hr
    · rw [heq] at hr
      rcases List.mem_append.1 hr with h1 | h1
      · exact hinv r h1
      · have hr' : r = uploadRecord freshId path content origName hash
            userId md notes := by simpa using h1
        subst hr'
        simp [uploadRecord, lastUMLocation, List.filter]
  case move fid uid newLocation notes =>
    intro r hr
    rcases moveOp_records fid uid newLocation notes s with heq | ⟨hloc, np, heq⟩
    · rw [heq] at hr; exact hinv r hr
    · rw [heq] at hr
      rcases mem_updateRecord hr with hmem | ⟨r0, hfind0, hmem0, rfl⟩
      · exact hinv r hmem
      · have hbne : (newLocation != "") = true := by
          simp only [bne, hloc, Bool.not_false]
        simp [addCustodyEvent, lastUMLocation_append, hbne]
  case download fid uid notes hash =>
    intro r hr
    rcases downloadOp_records fid uid notes hash s with heq | ⟨r1, hfind1, heq⟩
    · rw [heq] at hr; exact hinv r hr
    · rw [heq] at hr
      rcases mem_updateRecord hr with hmem | ⟨r0, hfind0, hmem0, rfl⟩
      · exact hinv r hmem
      · obtain rfl : r1 = r0 := by
          rw [hfind0] at hfind1
          exact (Option.some.inj hfind1).symm
        simp [addCustodyEvent, lastUMLocation_append]
        exact hinv r1 hmem0
  case access fid uid notes =>
    intro r hr
    rcases accessLogOp_records fid uid notes s with heq | ⟨r1, hfind1, heq⟩
    · rw [heq] at hr; exact hinv r hr
    · rw [heq] at hr
      rcases mem_updateRecord hr with hmem | ⟨r0, hfind0, hmem0, rfl⟩
      · exact hinv r hmem
      · obtain rfl : r1 = r0 := by
          rw [hfind0] at hfind1
          exact (Option.some.inj hfind1).symm
        simp [addCustodyEvent, lastUMLocation_append]
        exact hinv r1 hmem0

theorem locInv_reachable {s : RState} (h : Reachable s) : LocInv s := by
  induction h with
  | init => intro r hr; simp [initR] at hr
  | step _ hstep ih => exact locInv_step hstep ih

theorem singleUploadInv_step {s t : RState} (hstep : Step s t)
    (hinv : SingleUploadInv s) : SingleUploadInv t := by
  cases hstep
  case upload freshId path content origName hash userId md notes saveOk =>
    intro r hr
    rcases uploadOp_records freshId path content origName hash userId md
        notes saveOk s with heq | heq
    · rw [heq] at hr; exact hinv r hr
    · rw [heq] at hr
      rcases List.mem_append.1 hr with h1 | h1
      · exact hinv r h1
      · have hr' : r = uploadRecord freshId path content origName hash
            userId md notes := by simpa using h1
        subst hr'
        constructor
        · simp [uploadRecord, List.countP_cons]
        · simp [uploadRecord]
  case move fid uid newLocation notes =>
    intro r hr
    rcases moveOp_records fid uid newLocation notes s with heq | ⟨hloc, np, heq⟩
    · rw [heq] at hr; exact hinv r hr
    · rw [heq] at hr
      rcases mem_updateRecord hr with hmem | ⟨r0, hfind0, hmem0, rfl⟩
      · exact hinv r hmem
      · obtain ⟨hcount, hhead⟩ := hinv r0 hmem0
        have hne : r0.custodyChain ≠ [] := by
          intro hnil
          rw [hnil] at hcount
          simp at hcount
        refine ⟨?_, ?_⟩
        · simp only [addCustodyEvent]
          rw [countUploads_append r0.custodyChain
            { action := "move", userId := uid, location := newLocation,
              notes := notes } rfl]
          exact hcount
        · simp only [addCustodyEvent]
          rw [head?_append_of_ne_nil _ _ hne]
          exact hhead
  case download fid uid notes hash =>
    intro r hr
    rcases downloadOp_records fid uid notes hash s with heq | ⟨r1, hfind1, heq⟩
    · rw [heq] at hr; exact hinv r hr
    · rw [heq] at hr
      rcases mem_updateRecord hr with hmem | ⟨r0, hfind0, hmem0, rfl⟩
      · exact hinv r hmem
      · obtain ⟨hcount, hhead⟩ := hinv r0 hmem0
        have hne : r0.custodyChain ≠ [] := by
          intro hnil
          rw [hnil] at hcount
          simp at hcount
        refine ⟨?_, ?_⟩
        · simp only [addCustodyEvent]
          rw [countUploads_append r0.custodyChain
            { action := "download", userId := uid,
              location := r1.currentLocation, notes := notes } rfl]
          exact hcount
        · simp only [addCustodyEvent]
          rw [head?_append_of_ne_nil _ _ hne]
          exact hhead
  case access fid uid notes =>
    intro r hr
    rcases accessLogOp_records fid uid notes s with heq | ⟨r1, hfind1, heq⟩
    · rw [heq] at hr; exact hinv r hr
    · rw [heq] at hr
      rcases mem_updateRecord hr with hmem | ⟨r0, hfind0, hmem0, rfl⟩
      · exact hinv r hmem
      · obtain ⟨hcount, hhead⟩ := hinv r0 hmem0
        have hne : r0.custodyChain ≠ [] := by
          intro hnil
          rw [hnil] at hcount
          simp at hcount
        refine ⟨?_, ?_⟩
        · simp only [addCustodyEvent]
          rw [countUploads_append r0.custodyChain
            { action := "access", userId := uid,
              location := r1.currentLocation, notes := notes } rfl]
          exact hcount
        · simp only [addCustodyEvent]
          rw [head?_append_of_ne_nil _ _ hne]
          exact hhead

theorem singleUploadInv_reachable {s : RState} (h : Reachable s) :
    SingleUploadInv s := by
  induction h with
  | init => intro r hr; simp [initR] at hr
  | step _ hstep ih => exact singleUploadInv_step hstep ih

end Routes

namespace SimpleServer
open Custody

theorem uploadOp_state (freshId path content origName : String)
    (hash : Content → String) (userId notes : String) (s : SState) :
    ((uploadOp freshId path content origName hash userId notes s).1.files
        = s.files ∧
     (uploadOp freshId path content origName hash userId notes s).1.chains
        = s.chains) ∨
    ((uploadOp freshId path content origName hash userId notes s).1.files
        = setA s.files freshId (uploadRecord freshId path content origName hash) ∧
     (uploadOp freshId path content origName hash userId notes s).1.chains
        = setA s.chains freshId [uploadEvent userId notes]) := by
  cases hu : (userId == "") <;>
    simp [uploadOp, uploadRecord, uploadEvent, hu]

theorem moveOp_state (fid uid newLocation notes : String) (s : SState) :
    ((moveOp fid uid newLocation notes s).1.files = s.files ∧
     (moveOp fid uid newLocation notes s).1.chains = s.chains) ∨
    ∃ f, lookupA s.files fid = some f ∧
      (moveOp fid uid newLocation notes s).1.files
        = setA s.files fid { f with currentLocation := newLocation } ∧
      (moveOp fid uid newLocation notes s).1.chains
        = setA s.chains fid (((lookupA s.chains fid).getD []) ++
            [{ action := "move", userId := uid, location := newLocation,
               notes := notes }]) := by
  cases h1 : (fid == "" || uid == "" || newLocation == "")
  · cases hfind : lookupA s.files fid with
    | none => simp [moveOp, h1, hfind]
    | some f =>
      right
      exact ⟨f, rfl, by simp [moveOp, h1, hfind],
        by simp [moveOp, h1, hfind]⟩
  · simp [moveOp, h1]

theorem downloadOp_state (fid uid notes : String) (s : SState) :
    (downloadOp fid uid notes s).1.files = s.files ∧
    ((downloadOp fid uid notes s).1.chains = s.chains ∨
     ∃ f, lookupA s.files fid = some f ∧
       (downloadOp fid uid notes s).1.chains
         = setA s.chains fid (((lookupA s.chains fid).getD []) ++
             [{ action := "download", userId := uid,
                location := f.currentLocation, notes := notes }])) := by
  cases h1 : (uid == "")
  · cases hfind : lookupA s.files fid with
    | none => simp [downloadOp, h1, hfind]
    | some f =>
      cases hbytes : lookupA s.storage f.filePath with
      | none => simp [downloadOp, h1, hfind, hbytes]
      | some c =>
        refine ⟨by simp [downloadOp, h1, hfind, hbytes], Or.inr ⟨f, rfl,
          by simp [downloadOp, h1, hfind, hbytes]⟩⟩
  · simp [downloadOp, h1]

theorem ssLocInv_step {s t : SState} (hstep : Step s t) (hinv : LocInv s) :
    LocInv t := by
  cases hstep
  case upload freshId path content origName hash userId notes =>
    intro fid rec hlook
    rcases uploadOp_state freshId path content origName hash userId notes s
        with ⟨hf, hc⟩ | ⟨hf, hc⟩
    · rw [hf] at hlook
      rw [hc]
      exact hinv fid rec hlook
    · rw [hf] at hlook
      rw [hc]
      by_cases hfid : fid = freshId
      · subst hfid
        rw [lookupA_setA_self] at hlook
        obtain rfl : uploadRecord fid path content origName hash = rec :=
          by injection hlook
        refine ⟨[uploadEvent userId notes], lookupA_setA_self _ _ _, ?_⟩
        simp [uploadEvent, uploadRecord, lastUMLocation, List.filter]
      · rw [lookupA_setA_ne _ _ _ _ hfid] at hlook
        obtain ⟨ch, hch, hum⟩ := hinv fid rec hlook
        exact ⟨ch, by rw [lookupA_setA_ne _ _ _ _ hfid]; exact hch, hum⟩
  case move fid0 uid newLocation notes =>
    intro fid rec hlook
    rcases moveOp_state fid0 uid newLocation notes s
        with ⟨hf, hc⟩ | ⟨f, hff, hf, hc⟩
    · rw [hf] at hlook
      rw [hc]
      exact hinv fid rec hlook
    · rw [hf] at hlook
      rw [hc]
      by_cases hfid : fid = fid0
      · subst hfid
        rw [lookupA_setA_self] at hlook
        obtain rfl : ({ f with currentLocation := newLocation }
            : FileRecord) = rec := by injection hlook
        refine ⟨_, lookupA_setA_self _ _ _, ?_⟩
        simp [lastUMLocation_append]
      · rw [lookupA_setA_ne _ _ _ _ hfid] at hlook
        obtain ⟨ch, hch, hum⟩ := hinv fid rec hlook
        exact ⟨ch, by rw [lookupA_setA_ne _ _ _ _ hfid]; exact hch, hum⟩
  case download fid0 uid notes =>
    intro fid rec hlook
    obtain ⟨hf, hcs⟩ := downloadOp_state fid0 uid notes s
    rw [hf] at hlook
    rcases hcs with hc | ⟨f, hff, hc⟩
    · rw [hc]
      exact hinv fid rec hlook
    · rw [hc]
      by_cases hfid : fid = fid0
      · subst hfid
        obtain rfl : f = rec := by rw [hff] at hlook; injection hlook
        obtain ⟨ch, hch, hum⟩ := hinv fid f hff
        refine ⟨_, lookupA_setA_self _ _ _, ?_⟩
        rw [hch]
        simpa [lastUMLocation_append] using hum
      · rw [lookupA_setA_ne _ _ _ _ hfid]
        exact hinv fid rec hlook

theorem ssLocInv_reachable {s : SState} (h : Reachable s) : LocInv s := by
  induction h with
  | init => intro fid rec hlook; simp [initS, lookupA] at hlook
  | step _ hstep ih => exact ssLocInv_step hstep ih

theorem ssSingleUploadInv_step {s t : SState} (hstep : Step s t)
    (hinv : SingleUploadInv s) : SingleUploadInv t := by
  cases hstep
  case upload freshId path content origName hash userId notes =>
    intro fid rec hlook
    rcases uploadOp_state freshId path content origName hash userId notes s
        with ⟨hf, hc⟩ | ⟨hf, hc⟩
    · rw [hf] at hlook
      rw [hc]
      exact hinv fid rec hlook
    · rw [hf] at hlook
      rw [hc]
      by_cases hfid : fid = freshId
      · subst hfid
        refine ⟨[uploadEvent userId notes], lookupA_setA_self _ _ _, ?_, ?_⟩
        · simp [uploadEvent, List.countP_cons]
        · simp [uploadEvent]
      · rw [lookupA_setA_ne _ _ _ _ hfid] at hlook
        obtain ⟨ch, hch, hcnt, hhd⟩ := hinv fid rec hlook
        exact ⟨ch, by rw [lookupA_setA_ne _ _ _ _ hfid]; exact hch, hcnt, hhd⟩
  case move fid0 uid newLocation notes =>
    intro fid rec hlook
    rcases moveOp_state fid0 uid newLocation notes s
        with ⟨hf, hc⟩ | ⟨f, hff, hf, hc⟩
    · rw [hf] at hlook
      rw [hc]
      exact hinv fid rec hlook
    · rw [hf] at hlook
      rw [hc]
      by_cases hfid : fid = fid0
      · subst hfid
        obtain ⟨ch, hch, hcnt, hhd⟩ := hinv fid f hff
        have hne : ch ≠ [] := by
          intro hnil
          rw [hnil] at hcnt
          simp at hcnt
        refine ⟨_, lookupA_setA_self _ _ _, ?_, ?_⟩
        · rw [hch]
          simp only [Option.getD_some]
          rw [countUploads_append ch
            { action := "move", userId := uid, location := newLocation,
              notes := notes } rfl]
          exact hcnt
        · rw [hch]
          simp only [Option.getD_some]
          rw [head?_append_of_ne_nil _ _ hne]
          exact hhd
      · rw [lookupA_setA_ne _ _ _ _ hfid] at hlook
        obtain ⟨ch, hch, hcnt, hhd⟩ := hinv fid rec hlook
        exact ⟨ch, by rw [lookupA_setA_ne _ _ _ _ hfid]; exact hch, hcnt, hhd⟩
  case download fid0 uid notes =>
    intro fid rec hlook
    obtain ⟨hf, hcs⟩ := downloadOp_state fid0 uid notes s
    rw [hf] at hlook
    rcases hcs with hc | ⟨f, hff, hc⟩
    · rw [hc]
      exact hinv fid rec hlook
    · rw [hc]
      by_cases hfid : fid = fid0
      · subst hfid
        obtain ⟨ch, hch, hcnt, hhd⟩ := hinv fid f hff
        have hne : ch ≠ [] := by
          intro hnil
          rw [hnil] at hcnt
          simp at hcnt
        refine ⟨_, lookupA_setA_self _ _ _, ?_, ?_⟩
        · rw [hch]
          simp only [Option.getD_some]
          rw [countUploads_append ch
            { action := "download", userId := uid,
              location := f.currentLocation, notes := notes } rfl]
          exact hcnt
        · rw [hch]
          simp only [Option.getD_some]
          rw [head?_append_of_ne_nil _ _ hne]
          exact hhd
      · rw [lookupA_setA_ne _ _ _ _ hfid]
        exact hinv fid rec hlook

theorem ssSingleUploadInv_reachable {s : SState} (h : Reachable s) :
    SingleUploadInv s := by
  induction h with
  | init => intro fid rec hlook; simp [initS, lookupA] at hlook
  | step _ hstep ih => exact ssSingleUploadInv_step hstep ih

end SimpleServer

namespace Routes

theorem numPages_zero (N : Nat) (hN : 0 < N) : numPages 0 N = 0 := by
  unfold numPages
  have h : 0 + N - 1 < N := by omega
  exact Nat.div_eq_of_lt h

theorem chunksJoin {α : Type} (N : Nat) (hN : 0 < N) :
    ∀ (n : Nat) (l : List α), l.length ≤ n →
      ((List.range (numPages l.length N)).map
          (fun i => (l.drop (i * N)).take N)).flatten = l := by
  intro n
  induction n with
  | zero =>
    intro l hl
    have hl0 : l = [] := List.eq_nil_of_length_eq_zero (Nat.le_zero.mp hl)
    subst hl0
    simp [numPages_zero N hN]
  | succ n ih =>
    intro l hl
    cases l with
    | nil => simp [numPages_zero N hN]
    | cons a t =>
      have hlen : (a :: t).length = t.length + 1 := rfl
      have hpages : numPages (a :: t).length N = t.length / N + 1 := by
        unfold numPages
        rw [hlen]
        have h1 : t.length + 1 + N - 1 = t.length + N := by omega
        rw [h1, Nat.add_div_right _ hN]
      rw [hpages, List.range_succ_eq_map, List.map_cons, List.flatten_cons,
        List.map_map]
      have hdrop0 : (((a :: t).drop (0 * N)).take N) = (a :: t).take N := by
        simp
      rw [hdrop0]
      have hfun : ((fun i => (((a :: t).drop (i * N)).take N)) ∘ Nat.succ)
          = fun i => ((((a :: t).drop N).drop (i * N)).take N) := by
        funext i
        simp only [Function.comp]
        rw [List.drop_drop, Nat.succ_mul, Nat.add_comm (i * N) N]
      rw [hfun]
      have hnum : numPages ((a :: t).drop N).length N = t.length / N := by
        rw [List.length_drop, hlen]
        unfold numPages
        rcases le_or_lt (t.length + 1) N with hle | hlt
        · have h1 : t.length + 1 - N = 0 := by omega
          rw [h1]
          have h2 : 0 + N - 1 < N := by omega
          rw [Nat.div_eq_of_lt h2]
          have h3 : t.length < N := by omega
          rw [Nat.div_eq_of_lt h3]
        · have h1 : t.length + 1 - N + N - 1 = t.length := by omega
          rw [h1]
      have hlend : ((a :: t).drop N).length ≤ n := by
        rw [List.length_drop]
        simp only [List.length_cons]
        simp only [List.length_cons] at hl
        omega
      rw [← hnum, ih ((a :: t).drop N) hlend]
      exact List.take_append_drop N (a :: t)

end Routes

open Custody

/-- C2: a Retrieve (download) on an existing record with status `active`
whose stored bytes hash to something other than the recorded
`contentFingerprint` fails with `IntegrityViolation` and returns the
state unchanged — no download event is appended and no bytes are
streamed. -/
theorem retrieve_integrity_gate
    (s : Routes.RState) (fid uid notes : String)
    (hash : Content → String) (r : Routes.FileRecord) (c : Content)
    (huid : uid ≠ "")
    (hfind : Routes.findByFileId s.records fid = some r)
    (hactive : r.status = "active")
    (hbytes : lookupA s.storage r.filePath = some c)
    (hmismatch : hash c ≠ r.checksum) :
    Routes.downloadOp fid uid notes hash s =
      (s, .err .integrityViolation) := by
  have h1 : (uid == "") = false := beq_eq_false_iff_ne.mpr huid
  have h2 : (r.status != "active") = false := by simp [hactive]
  have h3 : (hash c != r.checksum) = true := by simp [hmismatch]
  simp [Routes.downloadOp, h1, hfind, h2, hbytes, h3]

/-- Witness for `retrieve_integrity_gate` on the tampered demo state: the
stored bytes `data` digest to `dead`, not the recorded `cafe`, and the
download fails with `IntegrityViolation` leaving the state intact. -/
theorem retrieve_integrity_gate_witness :
    ((fun _ => "dead" : Content → String) "data" ≠ Demo.recActive.checksum) ∧
    Routes.downloadOp "f1" "u3" "" (fun _ => "dead") Demo.stTampered =
      (Demo.stTampered, .err .integrityViolation) :=
  ⟨by decide,
    retrieve_integrity_gate Demo.stTampered "f1" "u3" "" (fun _ => "dead")
      Demo.recActive "data" (by decide) (by decide) (by decide) (by decide)
      (by decide)⟩

/-- C1 counterexample: on an active record whose stored bytes (`data`)
hash (here to `dead`) differently from the recorded fingerprint
(`cafe`), the routes move handler nevertheless succeeds: it reports
`ok`, appends a second custody event, and changes `currentLocation` to
the new location — the claimed `IntegrityViolation` failure does not
happen. -/
theorem relocate_ignores_integrity_cx :
    ((fun _ => "dead" : Content → String) "data" ≠ Demo.recActive.checksum) ∧
    (Routes.moveOp "f1" "u2" "vault" "" Demo.stTampered).2 =
      Routes.MoveResult.ok "uploads" "vault" ∧
    (Routes.findByFileId
        (Routes.moveOp "f1" "u2" "vault" "" Demo.stTampered).1.records
        "f1").map (fun r => (r.custodyChain.length, r.currentLocation)) =
      some (2, "vault") := by
  decide

/-- C1 (amended): the move route performs no integrity verification: on
an existing active record with the physical file present it succeeds,
appends the `move` event and relocates the bytes even when the stored
bytes no longer hash to the record's `contentFingerprint`. -/
theorem relocate_no_integrity_gate
    (s : Routes.RState) (fid uid newLocation notes : String)
    (hash : Content → String) (r : Routes.FileRecord) (c : Content)
    (hfid : fid ≠ "") (huid : uid ≠ "") (hloc : newLocation ≠ "")
    (hfind : Routes.findByFileId s.records fid = some r)
    (hactive : r.status = "active")
    (hbytes : lookupA s.storage r.filePath = some c)
    (hmismatch : hash c ≠ r.checksum) :
    (Routes.moveOp fid uid newLocation notes s).2 =
      Routes.MoveResult.ok r.currentLocation newLocation ∧
    Routes.findByFileId
        (Routes.moveOp fid uid newLocation notes s).1.records fid =
      some { Routes.addCustodyEvent r
          { action := "move", userId := uid, location := newLocation,
            notes := notes }
        with filePath := newLocation ++ "/" ++ baseName r.filePath } := by
  have h1 : (fid == "" || uid == "" || newLocation == "") = false := by
    simp [hfid, huid, hloc]
  have h2 : (r.status != "active") = false := by simp [hactive]
  constructor
  · simp [Routes.moveOp, h1, hfind, h2, hbytes]
  · have hrec : (Routes.moveOp fid uid newLocation notes s).1.records =
        Routes.updateRecord s.records fid (fun r0 =>
          { Routes.addCustodyEvent r0
              { action := "move", userId := uid, location := newLocation,
                notes := notes }
            with filePath := newLocation ++ "/" ++ baseName r.filePath }) := by
      simp [Routes.moveOp, h1, hfind, h2, hbytes]
    rw [hrec,
      Routes.findByFileId_updateRecord s.records fid
        (fun r0 =>
          { Routes.addCustodyEvent r0
              { action := "move", userId := uid, location := newLocation,
                notes := notes }
            with filePath := newLocation ++ "/" ++ baseName r.filePath })
        (fun _ => rfl),
      hfind]
    rfl

/-- Witness for `relocate_no_integrity_gate` on the tampered demo
state. -/
theorem relocate_no_integrity_gate_witness :
    ((fun _ => "dead" : Content → String) "data" ≠ Demo.recActive.checksum) ∧
    (Routes.moveOp "f1" "u2" "vault" "" Demo.stTampered).2 =
      Routes.MoveResult.ok Demo.recActive.currentLocation "vault" :=
  ⟨by decide,
    (relocate_no_integrity_gate Demo.stTampered "f1" "u2" "vault" ""
      (fun _ => "dead") Demo.recActive "data" (by decide) (by decide)
      (by decide) (by decide) (by decide) (by decide) (by decide)).1⟩

/-- C3 counterexample: the simple-server move handler has no status gate:
on a record with status `archived` it succeeds (`ok`), appends a second
custody entry and updates `currentLocation` — instead of failing with
`InvalidState` and leaving the record unchanged as claimed. -/
theorem simple_server_move_skips_status_gate_cx :
    Demo.ssRecArchived.status = "archived" ∧
    (SimpleServer.moveOp "f1" "u2" "vault" "" Demo.ssArchived).2 =
      SimpleServer.MoveResult.ok "uploads" "vault" ∧
    (lookupA (SimpleServer.moveOp "f1" "u2" "vault" ""
        Demo.ssArchived).1.chains "f1").map List.length = some 2 ∧
    (lookupA (SimpleServer.moveOp "f1" "u2" "vault" ""
        Demo.ssArchived).1.files "f1").map (fun f => f.currentLocation) =
      some "vault" := by
  decide

/-- C3 (amended): in the main routes backend, both Relocate and Retrieve
on a record whose status is not `active` fail with `InvalidState` and
return the state unchanged; the simple-server variant of move, however,
performs no status check (see the counterexample). -/
theorem status_gate_routes
    (s : Routes.RState) (fid uid newLocation notes : String)
    (hash : Content → String) (r : Routes.FileRecord)
    (hfid : fid ≠ "") (huid : uid ≠ "") (hloc : newLocation ≠ "")
    (hfind : Routes.findByFileId s.records fid = some r)
    (hstatus : r.status ≠ "active") :
    Routes.moveOp fid uid newLocation notes s = (s, .err .invalidState) ∧
    Routes.downloadOp fid uid notes hash s = (s, .err .invalidState) := by
  have h1 : (fid == "" || uid == "" || newLocation == "") = false := by
    simp [hfid, huid, hloc]
  have h1u : (uid == "") = false := beq_eq_false_iff_ne.mpr huid
  have h2 : (r.status != "active") = true := by simp [hstatus]
  exact ⟨by simp [Routes.moveOp, h1, hfind, h2],
    by simp [Routes.downloadOp, h1u, hfind, h2]⟩

/-- Witness for `status_gate_routes` on the archived demo record. -/
theorem status_gate_routes_witness :
    Demo.recArchived.status ≠ "active" ∧
    Routes.moveOp "f1" "u2" "vault" "" Demo.stArchived =
      (Demo.stArchived, .err .invalidState) ∧
    Routes.downloadOp "f1" "u2" "" (fun _ => "cafe") Demo.stArchived =
      (Demo.stArchived, .err .invalidState) :=
  ⟨by decide,
    (status_gate_routes Demo.stArchived "f1" "u2" "vault" ""
      (fun _ => "cafe") Demo.recArchived (by decide) (by decide) (by decide)
      (by decide) (by decide)).1,
    (status_gate_routes Demo.stArchived "f1" "u2" "vault" ""
      (fun _ => "cafe") Demo.recArchived (by decide) (by decide) (by decide)
      (by decide) (by decide)).2⟩

/-- C4: at every state reachable by the core operations, every record's
`currentLocation` equals the `location` of the most recent event whose
action is `upload` or `move` — for the routes backend (all four
operations) and for the simple server (its three operations). -/
theorem location_consistency
    (s : Routes.RState) (t : SimpleServer.SState)
    (hs : Routes.Reachable s) (ht : SimpleServer.Reachable t) :
    Routes.LocInv s ∧ SimpleServer.LocInv t :=
  ⟨Routes.locInv_reachable hs, SimpleServer.ssLocInv_reachable ht⟩

/-- Witness for `location_consistency`: the state after one upload and
one move in each backend is reachable, so the invariant holds there. -/
theorem location_consistency_witness :
    Routes.LocInv (Routes.moveOp "f1" "u2" "archive" ""
      (Routes.uploadOp "f1" "uploads/a.txt" "data" "a.txt"
        (fun _ => "cafe") "u1" Demo.md0 "" true Routes.initR).1).1 ∧
    SimpleServer.LocInv (SimpleServer.moveOp "f1" "u2" "archive" ""
      (SimpleServer.uploadOp "f1" "uploads/a.txt" "data" "a.txt"
        (fun _ => "cafe") "u1" "" SimpleServer.initS).1).1 :=
  location_consistency _ _
    (Routes.Reachable.step
      (Routes.Reachable.step Routes.Reachable.init
        (Routes.Step.upload "f1" "uploads/a.txt" "data" "a.txt"
          (fun _ => "cafe") "u1" Demo.md0 "" true Routes.initR))
      (Routes.Step.move "f1" "u2" "archive" "" _))
    (SimpleServer.Reachable.step
      (SimpleServer.Reachable.step SimpleServer.Reachable.init
        (SimpleServer.Step.upload "f1" "uploads/a.txt" "data" "a.txt"
          (fun _ => "cafe") "u1" "" SimpleServer.initS))
      (SimpleServer.Step.move "f1" "u2" "archive" "" _))

/-- C5: at every reachable state, every record's custody chain contains
exactly one `upload` event and it sits at index 0; it is created with the
record at Ingest, and the later operations only append non-upload
events. -/
theorem single_upload_first
    (s : Routes.RState) (t : SimpleServer.SState)
    (hs : Routes.Reachable s) (ht : SimpleServer.Reachable t) :
    Routes.SingleUploadInv s ∧ SimpleServer.SingleUploadInv t :=
  ⟨Routes.singleUploadInv_reachable hs,
    SimpleServer.ssSingleUploadInv_reachable ht⟩

/-- Witness for `single_upload_first` at the same two-step reachable
states. -/
theorem single_upload_first_witness :
    Routes.SingleUploadInv (Routes.moveOp "f1" "u2" "archive" ""
      (Routes.uploadOp "f1" "uploads/a.txt" "data" "a.txt"
        (fun _ => "cafe") "u1" Demo.md0 "" true Routes.initR).1).1 ∧
    SimpleServer.SingleUploadInv (SimpleServer.moveOp "f1" "u2" "archive" ""
      (SimpleServer.uploadOp "f1" "uploads/a.txt" "data" "a.txt"
        (fun _ => "cafe") "u1" "" SimpleServer.initS).1).1 :=
  single_upload_first _ _
    (Routes.Reachable.step
      (Routes.Reachable.step Routes.Reachable.init
        (Routes.Step.upload "f1" "uploads/a.txt" "data" "a.txt"
          (fun _ => "cafe") "u1" Demo.md0 "" true Routes.initR))
      (Routes.Step.move "f1" "u2" "archive" "" _))
    (SimpleServer.Reachable.step
      (SimpleServer.Reachable.step SimpleServer.Reachable.init
        (SimpleServer.Step.upload "f1" "uploads/a.txt" "data" "a.txt"
          (fun _ => "cafe") "u1" "" SimpleServer.initS))
      (SimpleServer.Step.move "f1" "u2" "archive" "" _))

/-- C6 counterexample: the download route's `verifyFileIntegrity`
compares checksums with a case-sensitive `===`: with a digest whose
value is `ab` and expected hex `AB`, the digest equals
`lowercase(expected)` yet verification returns `false` — so the claimed
case-insensitive equivalence fails for it. -/
theorem download_verify_case_sensitive_cx :
    HashUtil.downloadVerify (fun _ => "ab") "x" "AB" = false ∧
    (fun _ => "ab" : Content → String) "x" = strLower "AB" := by
  constructor
  · decide
  · decide

/-- C6 (amended): the hash-utilities `verifyFileIntegrity` lowercases
both sides, so whenever the digest output is already lowercase (as crypto
hex digests are) it returns true exactly when the digest equals
`lowercase(expectedHex)`; the download route's `verifyFileIntegrity`
instead compares with `===`, returning true exactly when the digest
equals `expectedHex` verbatim. -/
theorem verify_hex_comparison
    (digest : Content → String) (c : Content) (e : String)
    (hlower : strLower (digest c) = digest c) :
    (HashUtil.hashGenVerify digest c e = true ↔ digest c = strLower e) ∧
    (HashUtil.downloadVerify digest c e = true ↔ digest c = e) := by
  constructor
  · unfold HashUtil.hashGenVerify
    rw [hlower]
    simp
  · unfold HashUtil.downloadVerify
    simp

/-- Witness for `verify_hex_comparison`: a lowercase digest value `ab`
verifies against the uppercase expected hex `AB` in the hash-utilities
version but not in the download-route version. -/
theorem verify_hex_comparison_witness :
    (strLower "ab" = "ab") ∧
    (HashUtil.hashGenVerify (fun _ => "ab") "x" "AB" = true ↔
      ("ab" : String) = strLower "AB") ∧
    (HashUtil.downloadVerify (fun _ => "ab") "x" "AB" = true ↔
      ("ab" : String) = "AB") :=
  ⟨by decide,
    (verify_hex_comparison (fun _ => "ab") "x" "AB" (by decide)).1,
    (verify_hex_comparison (fun _ => "ab") "x" "AB" (by decide)).2⟩

/-- C7 counterexample: the backend upload route does not derive the
fileId from the path — it assigns the `crypto.randomUUID()` draw.  Two
different files uploaded to the same path receive the two distinct fresh
ids and two separate records, so their custody histories do not merge. -/
theorem upload_fileid_random_cx :
    ((Routes.uploadOp "idB" "uploads/f.txt" "content-two" "f.txt"
        (fun _ => "h2") "u1" Demo.md0 "" true
        (Routes.uploadOp "idA" "uploads/f.txt" "content-one" "f.txt"
          (fun _ => "h1") "u1" Demo.md0 "" true
          Routes.initR).1).1.records.map (fun r => r.fileId)) =
      ["idA", "idB"] ∧ ("idA" : String) ≠ "idB" := by
  decide

/-- C7 (amended): only the hash-utilities CLI derives file identity by
hashing the resolved path: `generateFileId` is `md5(resolve(path))`, so
two adds at paths with the same resolution key the same record and their
custody entries merge into its single chain; the backend upload routes
instead assign a random UUID independent of the path (see the
counterexample). -/
theorem cli_fileid_from_path
    (md5hex resolve : String → String) (p1 p2 : String)
    (e1 e2 : HashUtil.HEntry)
    (hres : resolve p1 = resolve p2) :
    HashUtil.generateFileId md5hex resolve p1 =
      HashUtil.generateFileId md5hex resolve p2 ∧
    (HashUtil.addToCustodyChain md5hex resolve
        (HashUtil.addToCustodyChain md5hex resolve ⟨[]⟩ p1 e1) p2 e2).files =
      [(md5hex (resolve p1),
        { fileId := md5hex (resolve p1), originalPath := p1,
          fileName := baseName p1, custodyChain := [e1, e2] })] := by
  constructor
  · unfold HashUtil.generateFileId
    rw [hres]
  · unfold HashUtil.addToCustodyChain HashUtil.generateFileId
    rw [← hres]
    simp [lookupA, setA, List.find?]

/-- Witness for `cli_fileid_from_path` at a concrete path and digest. -/
theorem cli_fileid_from_path_witness :
    HashUtil.generateFileId (fun v => "h" ++ v) (fun v => v) "dir/f.txt" =
      HashUtil.generateFileId (fun v => "h" ++ v) (fun v => v) "dir/f.txt" ∧
    (HashUtil.addToCustodyChain (fun v => "h" ++ v) (fun v => v)
        (HashUtil.addToCustodyChain (fun v => "h" ++ v) (fun v => v) ⟨[]⟩
          "dir/f.txt"
          { action := "hash_generated", hash := "aaaa", algorithm := "sha256",
            location := "dir", notes := "" })
        "dir/f.txt"
        { action := "moved", hash := "bbbb", algorithm := "sha256",
          location := "dir", notes := "" }).files =
      [("hdir/f.txt",
        { fileId := "hdir/f.txt", originalPath := "dir/f.txt",
          fileName := baseName "dir/f.txt",
          custodyChain :=
            [{ action := "hash_generated", hash := "aaaa",
               algorithm := "sha256", location := "dir", notes := "" },
             { action := "moved", hash := "bbbb", algorithm := "sha256",
               location := "dir", notes := "" }] })] :=
  cli_fileid_from_path (fun v => "h" ++ v) (fun v => v) "dir/f.txt"
    "dir/f.txt"
    { action := "hash_generated", hash := "aaaa", algorithm := "sha256",
      location := "dir", notes := "" }
    { action := "moved", hash := "bbbb", algorithm := "sha256",
      location := "dir", notes := "" }
    rfl

/-- C8: the access-log route appends exactly one `access` event whenever
`fileId` and `userId` are supplied and the record exists — with no
status hypothesis at all (the record's status may be `active`,
`archived` or `deleted`) and no hashing of the stored bytes, whose state
is untouched. -/
theorem logaccess_unconditional
    (s : Routes.RState) (fid uid notes : String) (r : Routes.FileRecord)
    (hfid : fid ≠ "") (huid : uid ≠ "")
    (hfind : Routes.findByFileId s.records fid = some r) :
    (Routes.accessLogOp fid uid notes s).2 = Routes.AccessResult.ok ∧
    (Routes.accessLogOp fid uid notes s).1.storage = s.storage ∧
    ∃ r', Routes.findByFileId
        (Routes.accessLogOp fid uid notes s).1.records fid = some r' ∧
      r'.custodyChain = r.custodyChain ++
        [{ action := "access", userId := uid,
           location := r.currentLocation, notes := notes }] ∧
      r'.status = r.status ∧
      r'.currentLocation = r.currentLocation ∧
      r'.checksum = r.checksum ∧
      r'.filePath = r.filePath := by
  have h1 : (fid == "" || uid == "") = false := by simp [hfid, huid]
  refine ⟨by simp [Routes.accessLogOp, h1, hfind],
    by simp [Routes.accessLogOp, h1, hfind], ?_⟩
  have hrec : (Routes.accessLogOp fid uid notes s).1.records =
      Routes.updateRecord s.records fid (fun r0 =>
        Routes.addCustodyEvent r0
          { action := "access", userId := uid,
            location := r.currentLocation, notes := notes }) := by
    simp [Routes.accessLogOp, h1, hfind]
  refine ⟨Routes.addCustodyEvent r
      { action := "access", userId := uid, location := r.currentLocation,
        notes := notes }, ?_, by simp [Routes.addCustodyEvent],
    by simp [Routes.addCustodyEvent], by simp [Routes.addCustodyEvent],
    by simp [Routes.addCustodyEvent], by simp [Routes.addCustodyEvent]⟩
  rw [hrec,
    Routes.findByFileId_updateRecord s.records fid
      (fun r0 => Routes.addCustodyEvent r0
        { action := "access", userId := uid,
          location := r.currentLocation, notes := notes })
      (fun _ => rfl),
    hfind]
  rfl

/-- Witness for `logaccess_unconditional` on the archived demo record:
LogAccess succeeds and appends its event even though the status is
`archived`. -/
theorem logaccess_unconditional_witness :
    Demo.recArchived.status = "archived" ∧
    (Routes.accessLogOp "f1" "u9" "viewed" Demo.stArchived).2 =
      Routes.AccessResult.ok :=
  ⟨by decide,
    (logaccess_unconditional Demo.stArchived "f1" "u9" "viewed"
      Demo.recArchived (by decide) (by decide) (by decide)).1⟩

/-- C9: for every page size N at least 1, both list endpoints return at
most N records per page; concatenating the pages in page order
reproduces the full (filtered, stably sorted) record list exactly — the
simple server's list over its file map, and the routes list over the
filtered and merge-sorted collection (the sorted list being a
permutation of the filtered set) — and the reported total equals the
size of that set. -/
theorem pagination_exactness
    (s : SimpleServer.SState) (rs : List Routes.FileRecord)
    (status dept caseNum : Option String)
    (le : Routes.FileRecord → Routes.FileRecord → Bool)
    (N : Nat) (hN : 1 ≤ N) :
    (∀ page, ((SimpleServer.listFiles s page N).1).length ≤ N) ∧
    ((List.range (Routes.numPages (SimpleServer.listFiles s 1 N).2 N)).map
        (fun i => (SimpleServer.listFiles s (i + 1) N).1)).flatten
      = s.files.map (fun p => p.2) ∧
    (SimpleServer.listFiles s 1 N).2
      = (s.files.map (fun p => p.2)).length ∧
    (∀ page,
      ((Routes.listQuery rs status dept caseNum le page N).1).length ≤ N) ∧
    ((List.range (Routes.numPages
          (Routes.listQuery rs status dept caseNum le 1 N).2 N)).map
        (fun i => (Routes.listQuery rs status dept caseNum le (i + 1) N).1)).flatten
      = (rs.filter (Routes.matchesFilters status dept caseNum)).mergeSort le ∧
    ((rs.filter (Routes.matchesFilters status dept caseNum)).mergeSort
        le).Perm (rs.filter (Routes.matchesFilters status dept caseNum)) ∧
    (Routes.listQuery rs status dept caseNum le 1 N).2
      = (rs.filter (Routes.matchesFilters status dept caseNum)).length := by
  refine ⟨?_, ?_, ?_, ?_, ?_, ?_, ?_⟩
  · intro page
    simpa [SimpleServer.listFiles] using
      List.length_take_le N ((s.files.map (fun p => p.2)).drop
        ((page - 1) * N))
  · simp only [SimpleServer.listFiles, Nat.add_sub_cancel]
    exact Routes.chunksJoin N hN _ _ le_rfl
  · simp [SimpleServer.listFiles]
  · intro page
    simpa [Routes.listQuery] using
      List.length_take_le N
        (((rs.filter (Routes.matchesFilters status dept caseNum)).mergeSort
          le).drop ((page - 1) * N))
  · simp only [Routes.listQuery, Nat.add_sub_cancel]
    rw [← @List.length_mergeSort _ le
      (rs.filter (Routes.matchesFilters status dept caseNum))]
    exact Routes.chunksJoin N hN _ _ le_rfl
  · exact List.mergeSort_perm _ le
  · simp [Routes.listQuery]

/-- Witness for `pagination_exactness` with page size 2, one
simple-server file and one routes record. -/
theorem pagination_exactness_witness :
    ((SimpleServer.listFiles Demo.ssArchived 1 2).1).length ≤ 2 ∧
    ((List.range (Routes.numPages
          (SimpleServer.listFiles Demo.ssArchived 1 2).2 2)).map
        (fun i => (SimpleServer.listFiles Demo.ssArchived (i + 1) 2).1)).flatten
      = Demo.ssArchived.files.map (fun p => p.2) ∧
    ((Routes.listQuery [Demo.recActive] none none none
        (fun _ _ => true) 1 2).1).length ≤ 2 ∧
    (Routes.listQuery [Demo.recActive] none none none
        (fun _ _ => true) 1 2).2
      = ([Demo.recActive].filter
          (Routes.matchesFilters none none none)).length :=
  ⟨(pagination_exactness Demo.ssArchived [Demo.recActive] none none none
      (fun _ _ => true) 2 (by decide)).1 1,
    (pagination_exactness Demo.ssArchived [Demo.recActive] none none none
      (fun _ _ => true) 2 (by decide)).2.1,
    (pagination_exactness Demo.ssArchived [Demo.recActive] none none none
      (fun _ _ => true) 2 (by decide)).2.2.2.1 1,
    (pagination_exactness Demo.ssArchived [Demo.recActive] none none none
      (fun _ _ => true) 2 (by decide)).2.2.2.2.2.2⟩

/-- C10: when the ledger save fails during Ingest, the upload handler's
catch block unlinks the stored bytes and reports the failure: the record
collection is unchanged and the uploaded path no longer resolves in
storage. -/
theorem ingest_cleanup_on_failure
    (s : Routes.RState) (freshId path content origName : String)
    (hash : Content → String) (userId : String) (md : Routes.Metadata)
    (notes : String) (huid : userId ≠ "") :
    (Routes.uploadOp freshId path content origName hash userId md notes
        false s).1.records = s.records ∧
    lookupA (Routes.uploadOp freshId path content origName hash userId md
        notes false s).1.storage path = none ∧
    (Routes.uploadOp freshId path content origName hash userId md notes
        false s).2 = .err .saveFailed := by
  have h1 : (userId == "") = false := beq_eq_false_iff_ne.mpr huid
  refine ⟨by simp [Routes.uploadOp, h1], ?_,
    by simp [Routes.uploadOp, h1]⟩
  have hst : (Routes.uploadOp freshId path content origName hash userId md
      notes false s).1.storage
      = removeA (setA s.storage path content) path := by
    simp [Routes.uploadOp, h1]
  rw [hst]
  exact lookupA_removeA_self _ _

/-- Witness for `ingest_cleanup_on_failure` at a concrete failed
ingest. -/
theorem ingest_cleanup_on_failure_witness :
    (Routes.uploadOp "idA" "uploads/x.txt" "bytes" "x.txt" (fun _ => "h")
        "u1" Demo.md0 "" false Routes.initR).1.records = Routes.initR.records ∧
    lookupA (Routes.uploadOp "idA" "uploads/x.txt" "bytes" "x.txt"
        (fun _ => "h") "u1" Demo.md0 "" false Routes.initR).1.storage
      "uploads/x.txt" = none ∧
    (Routes.uploadOp "idA" "uploads/x.txt" "bytes" "x.txt" (fun _ => "h")
        "u1" Demo.md0 "" false Routes.initR).2 = .err .saveFailed :=
  ingest_cleanup_on_failure Routes.initR "idA" "uploads/x.txt" "bytes"
    "x.txt" (fun _ => "h") "u1" Demo.md0 "" (by decide)
